import Mathlib

/-!
Verification of the `takeit` crate (`src/lib.rs`): a single-value handoff
primitive `HandOff<T>(Arc<Mutex<Option<T>>>)` with operations `new`, `take`,
`clone` and a `Debug` instance.

The embedding models the shared store as a heap of slots. Each slot is the
content of one `Mutex<Option<T>>`: an optional value together with the
poisoned flag of the mutex. A `HandOff` handle is a reference (an index) to
a slot, mirroring the `Arc` pointer; cloning a handle yields a handle to the
same slot. Because the entire body of `HandOff::take` runs while holding the
slot's lock, every concurrent execution linearizes to some sequential order
of the `take` calls; concurrent schedules are therefore modelled as
arbitrary-order sequences of atomic `take` steps (`runTakes`).
-/

/-- The content of one `Mutex<Option<T>>` cell: the stored optional value and
whether the mutex is poisoned (so that `lock()` returns `Err`). -/
structure SlotState (T : Type) where
  value : Option T
  poisoned : Bool

/-- The heap of allocated slots: a total map from slot indices to slot
states, together with the next fresh allocation index. -/
structure Heap (T : Type) where
  slots : Nat → SlotState T
  next : Nat

/-- Writing one slot of the heap, as done under the slot's lock. -/
def Heap.set (h : Heap T) (i : Nat) (s : SlotState T) : Heap T :=
  ⟨fun j => if j = i then s else h.slots j, h.next⟩

/-- A `HandOff<T>` handle: an `Arc` reference to one slot. -/
structure HandOff (T : Type) where
  slot : Nat

/-- Embedding of `HandOff::new` (src/lib.rs:22-24):
`Self(Arc::new(Mutex::new(Some(val))))` — allocate a fresh slot holding
`Some val` behind an unpoisoned mutex and return a handle to it. -/
def HandOff.new (val : T) (h : Heap T) : HandOff T × Heap T :=
  (⟨h.next⟩, ⟨fun j => if j = h.next then ⟨some val, false⟩ else h.slots j, h.next + 1⟩)

/-- Embedding of `impl Clone for HandOff` (src/lib.rs:50-54):
`Self(self.0.clone())` — a new handle to the same slot; the slot contents
are untouched (only the `Arc` reference count changes, which is not
observable through the API). -/
def HandOff.clone (self : HandOff T) : HandOff T :=
  ⟨self.slot⟩

/-- Embedding of `HandOff::take` (src/lib.rs:41-47):
`if let Ok(mut locked_value) = self.0.lock() { locked_value.take() } else { None }`.
`lock()` returns `Ok` exactly when the mutex is not poisoned; `Option::take`
returns the stored optional value and leaves `None` in its place. On a
poisoned lock the `else` branch returns `None` and nothing is written. -/
def HandOff.take (self : HandOff T) (h : Heap T) : Option T × Heap T :=
  let s := h.slots self.slot
  if s.poisoned then
    (none, h)
  else
    (s.value, h.set self.slot ⟨none, false⟩)

/-- The observable output of `impl Debug for HandOff` (src/lib.rs:56-72): a
debug struct named `HandOff` with a single field `value` holding the
displayed optional value. -/
structure DebugOutput (T : Type) where
  structName : String
  valueField : Option T

/-- Embedding of `impl Debug for HandOff` (src/lib.rs:56-72): lock the slot;
on `Ok(val)` emit the field `value` as the guarded `Option`, on `Err` emit
the field `value` as `None::<T>`. The source never writes to the slot, so
the heap is returned unchanged in both branches. -/
def HandOff.fmt (self : HandOff T) (h : Heap T) : DebugOutput T × Heap T :=
  let s := h.slots self.slot
  if s.poisoned then
    (⟨"HandOff", none⟩, h)
  else
    (⟨"HandOff", s.value⟩, h)

/-- A concurrent schedule of `take` calls: the `take` bodies are atomic
(each runs entirely under the slot's lock), so an arbitrary interleaving is
an arbitrary-order sequence of the calls. Returns the list of results in
schedule order and the final heap. -/
def runTakes : List (HandOff T) → Heap T → List (Option T) × Heap T
  | [], h => ([], h)
  | g :: gs, h =>
      let p := g.take h
      let q := runTakes gs p.2
      (p.1 :: q.1, q.2)

theorem Heap.set_slots_self (h : Heap T) (i : Nat) (s : SlotState T) :
    (h.set i s).slots i = s := by
  simp [Heap.set]

theorem take_present (g : HandOff T) (h : Heap T) (v : T)
    (hs : h.slots g.slot = ⟨some v, false⟩) :
    g.take h = (some v, h.set g.slot ⟨none, false⟩) := by
  simp [HandOff.take, hs]

theorem take_preserves_none (g : HandOff T) (h : Heap T) (i : Nat)
    (hv : (h.slots i).value = none) :
    ((g.take h).2.slots i).value = none := by
  unfold HandOff.take
  by_cases hp : (h.slots g.slot).poisoned
  · simp [hp, hv]
  · simp only [hp, if_neg, Bool.false_eq_true, not_false_eq_true, if_false, Heap.set]
    by_cases hij : i = g.slot <;> simp [hij, hv]

theorem take_drained_result (g : HandOff T) (h : Heap T)
    (hv : (h.slots g.slot).value = none) :
    (g.take h).1 = none := by
  unfold HandOff.take
  by_cases hp : (h.slots g.slot).poisoned <;> simp [hp, hv]

theorem runTakes_drained (hs : List (HandOff T)) (i : Nat)
    (hall : ∀ g ∈ hs, g.slot = i) :
    ∀ h : Heap T, (h.slots i).value = none →
      (runTakes hs h).1 = List.replicate hs.length none ∧
      ((runTakes hs h).2.slots i).value = none := by
  induction hs with
  | nil => intro h hv; simpa [runTakes] using hv
  | cons g gs ih =>
    intro h hv
    have hg : g.slot = i := hall g (by simp)
    have h1 : (g.take h).1 = none := take_drained_result g h (by rw [hg]; exact hv)
    have h2 : ((g.take h).2.slots i).value = none := take_preserves_none g h i hv
    have hrest := ih (fun g' hg' => hall g' (by simp [hg'])) (g.take h).2 h2
    simp [runTakes, h1, hrest.1, hrest.2, List.replicate]

theorem countP_isSome_replicate_none (n : Nat) :
    (List.replicate n (none : Option T)).countP (fun r => r.isSome) = 0 := by
  induction n with
  | zero => simp
  | succ k ih => simp [List.replicate, List.countP_cons, ih]

/-- C1: after `new v` and one clone, `take` on the first handle returns
`some v`, and a subsequent `take` on the cloned handle returns `none`. -/
theorem single_delivery (T : Type) (v : T) (h : Heap T) :
    ((HandOff.new v h).1.take (HandOff.new v h).2).1 = some v ∧
    (((HandOff.new v h).1.clone).take
        ((HandOff.new v h).1.take (HandOff.new v h).2).2).1 = none := by
  simp [HandOff.new, HandOff.take, HandOff.clone, Heap.set]

/-- C6: `new` always succeeds: it yields a handle to a freshly allocated
slot (the next fresh index) whose value is present and equal to `v` behind
an unpoisoned lock, leaving every other slot unchanged. -/
theorem new_always_succeeds (T : Type) (v : T) (h : Heap T) :
    (HandOff.new v h).2.slots (HandOff.new v h).1.slot = ⟨some v, false⟩ ∧
    (HandOff.new v h).1.slot = h.next ∧
    (HandOff.new v h).2.next = h.next + 1 ∧
    ∀ j, j ≠ h.next → (HandOff.new v h).2.slots j = h.slots j := by
  refine ⟨by simp [HandOff.new], rfl, rfl, fun j hj => by simp [HandOff.new, hj]⟩

/-- C7: `clone` produces a handle to the same underlying slot, touches no
heap state, and is value-transparent: a `take` through the clone behaves
exactly like a `take` through the original handle. -/
theorem clone_value_transparent (T : Type) (ho : HandOff T) (h : Heap T) :
    ho.clone.slot = ho.slot ∧ ho.clone.take h = ho.take h :=
  ⟨rfl, rfl⟩

/-- C8: `T` is an arbitrary type with no instance constraints, and the
winning `take` returns exactly the value given to `new`, removing it from
the slot (moved out, not duplicated: afterwards the slot holds no value). -/
theorem value_moved_not_copied (T : Type) (v : T) (h : Heap T) :
    ((HandOff.new v h).1.take (HandOff.new v h).2).1 = some v ∧
    (((HandOff.new v h).1.take (HandOff.new v h).2).2.slots
        (HandOff.new v h).1.slot).value = none := by
  simp [HandOff.new, HandOff.take, Heap.set]

/-- C5: `take` is total and never faults: on every heap and handle its
result is either `none`, or `some w` where `w` is exactly the value that was
present in the slot. -/
theorem take_never_faults (T : Type) (ho : HandOff T) (h : Heap T) :
    (ho.take h).1 = none ∨
    ∃ w, (ho.take h).1 = some w ∧ (h.slots ho.slot).value = some w := by
  unfold HandOff.take
  by_cases hp : (h.slots ho.slot).poisoned
  · simp [hp]
  · cases hv : (h.slots ho.slot).value <;> simp [hp, hv]

/-- C2: among `N ≥ 2` take calls racing on handles to one present slot,
scheduled in any order, the results are exactly one `some v` (the winner
receives the value) and `N - 1` times `none`. -/
theorem concurrent_single_winner (T : Type) (v : T) (i : Nat) (h : Heap T)
    (hs : List (HandOff T)) (hn : 2 ≤ hs.length)
    (hall : ∀ g ∈ hs, g.slot = i)
    (hpresent : h.slots i = ⟨some v, false⟩) :
    (runTakes hs h).1 = some v :: List.replicate (hs.length - 1) none ∧
    (runTakes hs h).1.countP (fun r => r.isSome) = 1 := by
  match hs, hn with
  | g :: gs, _ =>
    have hg : g.slot = i := hall g (by simp)
    have hfirst : g.take h = (some v, h.set g.slot ⟨none, false⟩) :=
      take_present g h v (by rw [hg]; exact hpresent)
    have hdrained : ((h.set g.slot ⟨none, false⟩).slots i).value = none := by
      rw [hg]; rw [Heap.set_slots_self]
    have hrest := runTakes_drained gs i (fun g' hg' => hall g' (by simp [hg']))
      (h.set g.slot ⟨none, false⟩) hdrained
    have hres : (runTakes (g :: gs) h).1 = some v :: List.replicate gs.length none := by
      simp [runTakes, hfirst, hrest.1]
    refine ⟨by simpa using hres, ?_⟩
    rw [hres]
    simp [List.countP_cons, countP_isSome_replicate_none]

/-- Witness for C2 at a concrete instance: two handles to slot `0` of a heap
holding `7`; the schedule yields results `[some 7, none]`. -/
theorem concurrent_single_winner_witness :
    (runTakes [(⟨0⟩ : HandOff Nat), ⟨0⟩] ⟨fun _ => ⟨some 7, false⟩, 1⟩).1
      = [some 7, none] := by
  have := concurrent_single_winner Nat 7 0 ⟨fun _ => ⟨some 7, false⟩, 1⟩
    [⟨0⟩, ⟨0⟩] (by simp) (by simp) rfl
  simpa using this.1

/-- C3: absence is permanent. Once a slot's value is gone: every schedule of
take calls on it yields only `none`; any take call anywhere preserves its
absence; `new` never writes into an already-allocated slot; and whenever a
take call returns `some w` it leaves the slot it drained with no value
(present transitions to absent at most once, never back). -/
theorem absence_is_permanent (T : Type) (v : T) (h : Heap T) (i : Nat)
    (hv : (h.slots i).value = none) :
    (∀ hs : List (HandOff T), (∀ g ∈ hs, g.slot = i) →
        (runTakes hs h).1 = List.replicate hs.length none) ∧
    (∀ g : HandOff T, ((g.take h).2.slots i).value = none) ∧
    (i < h.next → ((HandOff.new v h).2.slots i).value = none) ∧
    (∀ (h' : Heap T) (g : HandOff T) (w : T),
        (g.take h').1 = some w → ((g.take h').2.slots g.slot).value = none) := by
  refine ⟨fun hs hall => (runTakes_drained hs i hall h hv).1,
    fun g => take_preserves_none g h i hv, fun hi => ?_, fun h' g w hw => ?_⟩
  · have : i ≠ h.next := Nat.ne_of_lt hi
    simp [HandOff.new, this, hv]
  · unfold HandOff.take at hw ⊢
    by_cases hp : (h'.slots g.slot).poisoned
    · simp [hp] at hw
    · simp [hp, Heap.set_slots_self]

/-- Witness for C3 at a concrete instance: a drained slot stays drained and
a schedule of one take on it returns `[none]`. -/
theorem absence_is_permanent_witness :
    (runTakes [(⟨0⟩ : HandOff Nat)] ⟨fun _ => ⟨none, false⟩, 1⟩).1 = [none] := by
  have := absence_is_permanent Nat 5 ⟨fun _ => ⟨none, false⟩, 1⟩ 0 rfl
  simpa using this.1 [⟨0⟩] (by simp)

/-- C4: when the slot's lock is poisoned, `take` returns `none` without
touching the heap, and its result is indistinguishable from a take on an
already-drained slot. -/
theorem take_poisoned_absorbed (T : Type) (ho : HandOff T) (h : Heap T)
    (hp : (h.slots ho.slot).poisoned = true) :
    (ho.take h).1 = none ∧ (ho.take h).2 = h ∧
    ∀ h' : Heap T, (h'.slots ho.slot).value = none →
      (ho.take h').1 = (ho.take h).1 := by
  refine ⟨by simp [HandOff.take, hp], by simp [HandOff.take, hp], fun h' hv => ?_⟩
  rw [take_drained_result ho h' hv]
  simp [HandOff.take, hp]

/-- Witness for C4 at a concrete instance: a poisoned slot still holding `3`
yields `none` from take. -/
theorem take_poisoned_absorbed_witness :
    (HandOff.take (⟨0⟩ : HandOff Nat) ⟨fun _ => ⟨some 3, true⟩, 1⟩).1 = none := by
  exact (take_poisoned_absorbed Nat ⟨0⟩ ⟨fun _ => ⟨some 3, true⟩, 1⟩ rfl).1

/-- C10: the `Debug` formatter leaves the heap unchanged (so a subsequent
take behaves exactly as without formatting), always reports the struct name
`HandOff`, reports the field `value` as `none` when the lock is poisoned,
and otherwise reports the slot's actual optional value. -/
theorem fmt_readonly_absorbs_poison (T : Type) (ho g : HandOff T) (h : Heap T) :
    (ho.fmt h).2 = h ∧
    g.take (ho.fmt h).2 = g.take h ∧
    (ho.fmt h).1.structName = "HandOff" ∧
    ((h.slots ho.slot).poisoned = true → (ho.fmt h).1.valueField = none) ∧
    ((h.slots ho.slot).poisoned = false →
        (ho.fmt h).1.valueField = (h.slots ho.slot).value) := by
  unfold HandOff.fmt
  by_cases hp : (h.slots ho.slot).poisoned <;> simp [hp]

/-- Witness for C10 at a concrete instance: formatting a handle to a
poisoned slot that still holds `9` reports the value field as `none`. -/
theorem fmt_readonly_absorbs_poison_witness :
    (HandOff.fmt (⟨0⟩ : HandOff Nat) ⟨fun _ => ⟨some 9, true⟩, 1⟩).1.valueField
      = none := by
  exact (fmt_readonly_absorbs_poison Nat ⟨0⟩ ⟨0⟩ ⟨fun _ => ⟨some 9, true⟩, 1⟩).2.2.2.1 rfl
